import Mathlib

/-!
Verification development for the metamorph repository.

This file gives a shallow embedding, in Lean 4, of the parts of the
metamorph source that the specification's claims are about:

* the `tasks` package (git-based task locking: `ClaimTask`, `ReleaseTask`,
  `ListTasks`, `ClearStaleTasks`, `parseLock`);
* the `daemon` package (the persisted `State` model, `WriteState`,
  `GetStatus`, `IsRunning`, `normalizeStatus`, `updateAgentStates`, and the
  `Stats`-affecting steps of the `monitor` tick);
* the `gitops` package's `SyncToProjectDir` (modelled from the spec, as its
  implementation is not part of the provided sources).

File-system state is modelled as association lists from file name to file
content; the git remote is modelled as a state machine whose push
acceptance is the fast-forward check, matching the spec's assumption that
the push primitive is atomic and totally ordered on the remote.  Machine
integers are modelled as `Int`/`Nat` (none of the embedded quantities can
overflow in the scenarios considered).  Times are modelled as `Int`
nanosecond counts since the Unix epoch, matching Go's `time.Duration` and
`time.Time` nanosecond resolution.
-/

namespace Metamorph

/-! ### Go string primitives

Lean models of the Go standard-library string helpers used by the source:
`strings.Contains`, `strings.TrimSpace`, `strconv.Atoi`.  Scanning is done
over `List Char`, obtained from `String.toList`, so that all definitions
reduce on concrete inputs.
-/

/-- Model of Go `strings.Contains s sub`: `sub` occurs as a contiguous
substring of `s`. -/
def goContains (s sub : String) : Bool :=
  decide (List.IsInfix sub.toList s.toList)

/-- Characters treated as white space by Go `strings.TrimSpace` that can
occur in the inputs modelled here (ASCII white space). -/
def isSpaceChar (c : Char) : Bool :=
  c == ' ' || c == '\t' || c == '\n' || c == '\r' ||
    c == Char.ofNat 11 || c == Char.ofNat 12

/-- Trimming of leading and trailing white space on character lists. -/
def trimList (l : List Char) : List Char :=
  ((l.dropWhile isSpaceChar).reverse.dropWhile isSpaceChar).reverse

/-- Model of Go `strings.TrimSpace`, restricted to ASCII white space. -/
def goTrimSpace (s : String) : String :=
  String.mk (trimList s.toList)

/-- Accumulating step of decimal parsing: folds one more digit into the
value, failing on a non-digit. -/
def digitStep (acc : Option Nat) (c : Char) : Option Nat :=
  acc.bind fun a => if c.isDigit then some (a * 10 + (c.toNat - '0'.toNat)) else none

/-- Digits of a decimal number to its value; `none` when the list is empty
or contains a non-digit. -/
def digitsToNat : List Char → Option Nat
  | [] => none
  | ds => ds.foldl digitStep (some 0)

/-- Model of Go `strconv.Atoi`: an optional sign followed by at least one
decimal digit, and nothing else (overflow is not modelled). -/
def goAtoi (s : String) : Option Int :=
  match s.toList with
  | [] => none
  | c :: cs =>
    if c == '+' then (digitsToNat cs).map Int.ofNat
    else if c == '-' then (digitsToNat cs).map fun n => -(n : Int)
    else (digitsToNat (c :: cs)).map Int.ofNat

/-- Decimal digits of a natural number, most significant first. -/
def natToChars (n : Nat) : List Char :=
  if _h : n < 10 then [Nat.digitChar n]
  else natToChars (n / 10) ++ [Nat.digitChar (n % 10)]
  decreasing_by exact Nat.div_lt_self (by omega) (by omega)

/-- Model of Go `fmt.Sprintf`/`strconv.Itoa` decimal rendering of an
`int`. -/
def goItoa (i : Int) : String :=
  match i with
  | .ofNat n => String.mk (natToChars n)
  | .negSucc m => String.mk ('-' :: natToChars (m + 1))

/-- Model of Go `strings.HasPrefix`. -/
def goStartsWith (s pre : String) : Bool :=
  pre.toList.isPrefixOf s.toList

/-- Model of Go `strings.HasSuffix` (and of the `.lock`-suffix test). -/
def goEndsWith (s suf : String) : Bool :=
  suf.toList.isSuffixOf s.toList

/-! ### RFC 3339 timestamps

Model of Go `time.Parse(time.RFC3339, s)` producing the instant as a count
of nanoseconds since the Unix epoch, together with the range validation the
Go parser performs.  The lock protocol always writes timestamps with
`time.Now().UTC().Format(time.RFC3339)`, i.e. in the canonical
`YYYY-MM-DDTHH:MM:SSZ` form, but the parser below also accepts the
fractional seconds and numeric UTC offsets RFC 3339 allows.
-/

/-- Reads exactly `n` decimal digits, returning the value and the rest. -/
def takeDigits : Nat → List Char → Option (Nat × List Char)
  | 0, cs => some (0, cs)
  | n + 1, c :: cs =>
    if c.isDigit then
      (takeDigits n cs).bind fun (v, rest) =>
        some ((c.toNat - '0'.toNat) * 10 ^ n + v, rest)
    else none
  | _ + 1, [] => none

/-- Gregorian leap-year test. -/
def isLeapYear (y : Nat) : Bool :=
  (y % 4 == 0 && y % 100 != 0) || y % 400 == 0

/-- Days in the given month (1-12) of the given year. -/
def daysInMonth (y m : Nat) : Nat :=
  if m == 2 then (if isLeapYear y then 29 else 28)
  else if m == 4 || m == 6 || m == 9 || m == 11 then 30
  else 31

/-- Days in the months of year `y` strictly before month `m` (1-12). -/
def daysBeforeMonth (y m : Nat) : Nat :=
  (List.range (m - 1)).foldl (fun acc i => acc + daysInMonth y (i + 1)) 0

/-- Days in the years `0, 1, …, y - 1` of the proleptic Gregorian
calendar. -/
def daysBeforeYear (y : Nat) : Nat :=
  365 * y + y / 4 + y / 400 - y / 100

/-- Count of days from 0000-01-01 to 1970-01-01 in the proleptic Gregorian
calendar. -/
def epochDays : Nat := 719527

/-- Days from the Unix epoch to the civil date `y-m-d` (may be negative for
dates before 1970). -/
def daysFromEpoch (y m d : Nat) : Int :=
  (daysBeforeYear y + daysBeforeMonth y m + (d - 1) : Int) - (epochDays : Int)

/-- Parses an RFC 3339 fractional-second part (after the `.`): one or more
digits, of which the first nine are significant, giving nanoseconds. -/
def parseFraction (cs : List Char) : Option (Nat × List Char) :=
  let digits := cs.takeWhile Char.isDigit
  let rest := cs.dropWhile Char.isDigit
  if digits.isEmpty then none
  else
    let nine := (digits.take 9) ++ List.replicate (9 - digits.length) '0'
    (digitsToNat nine).map fun n => (n, rest)

/-- Parses the RFC 3339 zone part: `Z` or `±HH:MM`, giving the zone offset
east of UTC in seconds. -/
def parseZone : List Char → Option Int
  | ['Z'] => some 0
  | c :: cs =>
    if c == '+' || c == '-' then
      match cs with
      | [h1, h2, ':', m1, m2] =>
        (digitsToNat [h1, h2]).bind fun hh =>
          (digitsToNat [m1, m2]).bind fun mm =>
            if hh ≤ 23 && mm ≤ 59 then
              let secs : Int := (hh : Int) * 3600 + (mm : Int) * 60
              some (if c == '-' then -secs else secs)
            else none
      | _ => none
    else none
  | _ => none

/-- Model of Go `time.Parse(time.RFC3339, s)`: returns the instant as
nanoseconds since the Unix epoch, or `none` when `s` is not a valid
RFC 3339 timestamp. -/
def parseRFC3339 (s : String) : Option Int :=
  match takeDigits 4 s.toList with
  | none => none
  | some (y, rest) =>
    match rest with
    | '-' :: rest =>
      match takeDigits 2 rest with
      | none => none
      | some (mo, rest) =>
        match rest with
        | '-' :: rest =>
          match takeDigits 2 rest with
          | none => none
          | some (d, rest) =>
            match rest with
            | 'T' :: rest =>
              match takeDigits 2 rest with
              | none => none
              | some (h, rest) =>
                match rest with
                | ':' :: rest =>
                  match takeDigits 2 rest with
                  | none => none
                  | some (mi, rest) =>
                    match rest with
                    | ':' :: rest =>
                      match takeDigits 2 rest with
                      | none => none
                      | some (sec, rest) =>
                        let fracRest : Option (Nat × List Char) :=
                          match rest with
                          | '.' :: fs => parseFraction fs
                          | _ => some (0, rest)
                        match fracRest with
                        | none => none
                        | some (nanos, rest) =>
                          match parseZone rest with
                          | none => none
                          | some zoneSecs =>
                            if 1 ≤ mo && mo ≤ 12 && 1 ≤ d && d ≤ daysInMonth y mo &&
                                h ≤ 23 && mi ≤ 59 && sec ≤ 59 then
                              let secsOfDay : Int := (h : Int) * 3600 + (mi : Int) * 60 + (sec : Int)
                              some ((daysFromEpoch y mo d * 86400 + secsOfDay - zoneSecs) * 1000000000
                                + (nanos : Int))
                            else none
                    | _ => none
                | _ => none
            | _ => none
        | _ => none
    | _ => none

/-! ### String helpers used by the tasks package -/

/-- Model of Go `strings.TrimSuffix s suf`. -/
def goTrimSuffix (s suf : String) : String :=
  if goEndsWith s suf then
    String.mk (s.toList.take (s.toList.length - suf.toList.length))
  else s

/-- Model of Go `strings.TrimPrefix s pre` (drops `pre` from the front of
`s` when present, otherwise returns `s` unchanged). -/
def goTrimLeading (s pre : String) : String :=
  if pre.toList.isPrefixOf s.toList then String.mk (s.toList.drop pre.toList.length) else s

/-- Model of Go `strings.SplitN(s, " ", 2)`: splits at the first space, if
any. -/
def splitN2 (s : String) : List String :=
  let cs := s.toList
  if cs.any (· == ' ') then
    [String.mk (cs.takeWhile (· != ' ')), String.mk ((cs.dropWhile (· != ' ')).drop 1)]
  else
    [s]

/-! ### The tasks package

Model of `internal/tasks`.  A lock directory (`current_tasks/`) is an
association list from file name to file content; `Option` of such a list
models a directory that may be absent on disk.  The git remote used by
`ClaimTask`/`ReleaseTask` is a pair of a head counter and the lock
directory of its accepted history; a push is accepted exactly when it is a
fast forward (the pusher's last synchronised head equals the remote head),
which is the atomic total-ordering acceptance the spec assumes of the push
primitive.
-/

/-- Lock directory contents: file name to file content. -/
abbrev LockDir := List (String × String)

/-- Association-list read of a file. -/
def lookupFile (dir : LockDir) (name : String) : Option String :=
  (dir.find? fun e => e.1 == name).map Prod.snd

/-- Writing a file: replaces any entry of the same name. -/
def setFile (dir : LockDir) (name content : String) : LockDir :=
  (dir.filter fun e => e.1 ≠ name) ++ [(name, content)]

/-- Deleting a file. -/
def removeFile (dir : LockDir) (name : String) : LockDir :=
  dir.filter fun e => e.1 ≠ name

/-- File names of a directory are distinct. -/
def keysNodup (dir : LockDir) : Prop :=
  (dir.map Prod.fst).Nodup

/-- TaskLock represents a claimed task (`internal/tasks.TaskLock`); the
claim instant is in nanoseconds since the Unix epoch. -/
structure TaskLock where
  name : String
  agentID : Int
  claimedAt : Int
  deriving Repr, DecidableEq

/-- Model of `tasks.parseLock`: parses a lock file name and its content
`agent-<id> <RFC3339 timestamp>` into a `TaskLock`. -/
def parseLock (filename content : String) : Except String TaskLock :=
  let name := goTrimSuffix filename ".lock"
  match splitN2 (goTrimSpace content) with
  | [p0, p1] =>
    match goAtoi (goTrimLeading p0 "agent-") with
    | none => .error ("tasks: invalid agent ID in " ++ filename)
    | some agentID =>
      match parseRFC3339 p1 with
      | none => .error ("tasks: invalid timestamp in " ++ filename)
      | some claimedAt => .ok { name := name, agentID := agentID, claimedAt := claimedAt }
  | _ => .error ("tasks: malformed lock file " ++ filename)

/-- Processes the entries of the lock directory for `tasks.ListTasks`:
skips names not ending in `.lock`, parses the rest, propagating the first
parse error. -/
def listEntries : List (String × String) → Except String (List TaskLock)
  | [] => .ok []
  | (n, c) :: rest =>
    if goEndsWith n ".lock" then
      match parseLock n c with
      | .error e => .error e
      | .ok lock =>
        match listEntries rest with
        | .error e => .error e
        | .ok locks => .ok (lock :: locks)
    else
      listEntries rest

/-- Model of `tasks.ListTasks`: reads all `.lock` files in the lock
directory; a missing directory is not an error and yields the empty
list. -/
def listTasks (dir : Option (List (String × String))) : Except String (List TaskLock) :=
  match dir with
  | none => .ok []
  | some entries => listEntries entries

/-- Processes the entries for `tasks.ClearStaleTasks`: removes every lock
whose age relative to `now` exceeds `maxAge` (both in nanoseconds),
returning the surviving entries and the cleared task names; a parse error
aborts the scan, leaving the unprocessed entries in place. -/
def clearStaleEntries (now maxAge : Int) :
    List (String × String) → List (String × String) × Except String (List String)
  | [] => ([], .ok [])
  | (n, c) :: rest =>
    if goEndsWith n ".lock" then
      match parseLock n c with
      | .error e => ((n, c) :: rest, .error e)
      | .ok lock =>
        let (rest', res) := clearStaleEntries now maxAge rest
        if now - lock.claimedAt > maxAge then
          (rest', res.map fun names => lock.name :: names)
        else
          ((n, c) :: rest', res)
    else
      let (rest', res) := clearStaleEntries now maxAge rest
      ((n, c) :: rest', res)

/-- Model of `tasks.ClearStaleTasks`: removes lock files older than
`maxAge` relative to the caller's clock `now`; a missing directory is not
an error; returns the directory after removal and the names of the cleared
tasks. -/
def clearStaleTasks (dir : Option (List (String × String))) (now maxAge : Int) :
    Option (List (String × String)) × Except String (List String) :=
  match dir with
  | none => (none, .ok [])
  | some entries =>
    let (entries', res) := clearStaleEntries now maxAge entries
    (some entries', res)

/-! ### ClaimTask and the push race -/

/-- The shared remote (the upstream bare repository): a head counter that
advances on every accepted push, and the lock directory of the accepted
history. -/
structure Remote where
  head : Nat
  lockDir : LockDir
  deriving Repr, DecidableEq

/-- An agent's clone: the remote head it last synchronised with and its
working-tree lock directory. -/
structure AgentRepo where
  syncedHead : Nat
  lockDir : LockDir
  deriving Repr, DecidableEq

/-- Environment of one `ClaimTask` call: whether each local step succeeds,
and whether the push fails before reaching the remote (`some stderr`,
modelling network or permission failures) or reaches it (`none`), in which
case acceptance is the remote's fast-forward check. -/
structure ClaimEnv where
  mkdirOk : Bool
  writeOk : Bool
  addOk : Bool
  commitOk : Bool
  pushInfra : Option String
  deriving Repr, DecidableEq

/-- Environment of a fault-free claim whose push reaches the remote. -/
def cleanEnv : ClaimEnv :=
  { mkdirOk := true, writeOk := true, addOk := true, commitOk := true, pushInfra := none }

/-- Outcome of a `ClaimTask` call: won, lost (push rejected — not an
error), or a genuine error. -/
inductive ClaimOutcome where
  | won
  | lost
  | err (msg : String)
  deriving Repr, DecidableEq

/-- The stderr git prints when a push is rejected as a non-fast-forward. -/
def rejectedStderr : String := "! [rejected] main -> main (fetch first)"

/-- Rollback performed by `ClaimTask` on a rejected push (remove the lock
file, `git checkout -- current_tasks/`, `git reset --hard HEAD~1`,
`git pull --rebase origin main`): the local working state again matches the
remote's accepted history. -/
def rollback (remote : Remote) : AgentRepo :=
  { syncedHead := remote.head, lockDir := remote.lockDir }

/-- Model of `tasks.ClaimTask`: writes the lock file
`current_tasks/<task>.lock` with content `agent-<id> <ts>`, stages and
commits it, and pushes; a push rejection (stderr mentioning `rejected` or
`conflict`) rolls the clone back and loses; any other push failure is an
error.  Returns the remote after the call, the clone after the call, and
the outcome. -/
def claimTask (env : ClaimEnv) (remote : Remote) (a : AgentRepo)
    (task : String) (agentID : Int) (ts : String) : Remote × AgentRepo × ClaimOutcome :=
  if ¬ env.mkdirOk then (remote, a, .err "tasks: failed to create lock dir")
  else if ¬ env.writeOk then (remote, a, .err "tasks: failed to write lock file")
  else
    let content := "agent-" ++ goItoa agentID ++ " " ++ ts
    let a1 : AgentRepo := { a with lockDir := setFile a.lockDir (task ++ ".lock") content }
    if ¬ env.addOk then (remote, a1, .err "tasks: failed to stage lock file")
    else if ¬ env.commitOk then (remote, a1, .err "tasks: failed to commit lock file")
    else
      match env.pushInfra with
      | some stderr =>
        if goContains stderr "rejected" || goContains stderr "conflict" then
          (remote, rollback remote, .lost)
        else
          (remote, a1, .err "tasks: failed to push lock file")
      | none =>
        if a1.syncedHead = remote.head then
          let remote' : Remote := { head := remote.head + 1, lockDir := a1.lockDir }
          (remote', { a1 with syncedHead := remote'.head }, .won)
        else if goContains rejectedStderr "rejected" || goContains rejectedStderr "conflict" then
          (remote, rollback remote, .lost)
        else
          (remote, a1, .err "tasks: failed to push lock file")

/-- Runs fault-free `ClaimTask` calls for the given agent ids, one after
the other in the remote's total push order, every agent having cloned the
same starting state `a0`.  Returns the final remote and the outcomes in
order. -/
def runRace (remote : Remote) (a0 : AgentRepo) (task : String) (ts : String) :
    List Int → Remote × List ClaimOutcome
  | [] => (remote, [])
  | id :: ids =>
    let (remote', _, out) := claimTask cleanEnv remote a0 task id ts
    let (remoteF, outs) := runRace remote' a0 task ts ids
    (remoteF, out :: outs)

/-! ### ReleaseTask -/

/-- Environment of one `ReleaseTask` call: whether each fallible effect
succeeds. -/
structure ReleaseEnv where
  removeOk : Bool
  addOk : Bool
  commitOk : Bool
  pushOk : Bool
  deriving Repr, DecidableEq

/-- Result of a `ReleaseTask` call. -/
inductive ReleaseResult where
  | ok
  | err (msg : String)
  deriving Repr, DecidableEq

/-- Observable effect of a `ReleaseTask` call: the lock directory after the
call, whether a commit and a push were performed, and the result. -/
structure ReleaseEffect where
  lockDir : LockDir
  committed : Bool
  pushed : Bool
  result : ReleaseResult
  deriving Repr, DecidableEq

/-- The owner an on-disk lock record names: the decimal id following
`agent-` in its first space-separated token. -/
def recordedOwner (content : String) : Option Int :=
  goAtoi (goTrimLeading (String.mk ((trimList content.toList).takeWhile (· != ' '))) "agent-")

/-- Model of `tasks.ReleaseTask`: reads the lock record, refuses with an
ownership error unless the record starts with `agent-<id> `, and otherwise
removes it, commits and pushes. -/
def releaseTask (env : ReleaseEnv) (dir : LockDir) (task : String) (agentID : Int) :
    ReleaseEffect :=
  match lookupFile dir (task ++ ".lock") with
  | none => ⟨dir, false, false, .err "tasks: failed to read lock file"⟩
  | some data =>
    let ownerTag := "agent-" ++ goItoa agentID ++ " "
    if ¬ goStartsWith data ownerTag then
      ⟨dir, false, false,
        .err ("tasks: lock for " ++ task ++ " is not owned by agent-" ++ goItoa agentID)⟩
    else if ¬ env.removeOk then
      ⟨dir, false, false, .err "tasks: failed to remove lock file"⟩
    else
      let dir' := removeFile dir (task ++ ".lock")
      if ¬ env.addOk then ⟨dir', false, false, .err "tasks: failed to stage lock removal"⟩
      else if ¬ env.commitOk then ⟨dir', false, false, .err "tasks: failed to commit lock removal"⟩
      else if ¬ env.pushOk then ⟨dir', true, false, .err "tasks: failed to push lock removal"⟩
      else ⟨dir', true, true, .ok⟩

/-! ### The daemon package: persisted state model

Model of `internal/daemon`.  The JSON interchange format is modelled as a
tree (`Json` below); `json.MarshalIndent` becomes `encodeState : State →
Json` and `json.Unmarshal` becomes `decodeState : Json → Option State`
(text rendering of the tree is a serialization detail not modelled).  As in
Go's `encoding/json`, a missing object field decodes to the zero value and
a field of the wrong type is an error.  `time.Time` values are carried as
their RFC 3339 serializations and validated on decode, as Go's
`time.Time.UnmarshalJSON` does.
-/

/-- JSON values. -/
inductive Json where
  | null
  | str (s : String)
  | num (n : Int)
  | arr (xs : List Json)
  | obj (fields : List (String × Json))
  deriving Repr, BEq

/-- Reads an object field. -/
def getField (fields : List (String × Json)) (k : String) : Option Json :=
  (fields.find? fun f => f.1 == k).map Prod.snd

/-- Serialization of Go's zero `time.Time`. -/
def zeroTimeStr : String := "0001-01-01T00:00:00Z"

/-- Stats holds aggregate metrics (`daemon.Stats`). -/
structure Stats where
  totalCommits : Int
  totalSessions : Int
  tasksCompleted : Int
  uptimeSeconds : Int
  deriving Repr, DecidableEq

/-- AgentState tracks a single agent container (`daemon.AgentState`); the
time field carries its RFC 3339 serialization. -/
structure AgentState where
  id : Int
  role : String
  containerID : String
  status : String
  sessionsCompleted : Int
  lastActivity : String
  currentTask : Option String
  deriving Repr, DecidableEq

/-- State represents the daemon's persisted state (`daemon.State`). -/
structure State where
  status : String
  startedAt : String
  projectName : String
  agents : List AgentState
  stats : Stats
  deriving Repr, DecidableEq

/-- JSON encoding of `Stats`, with the source's field tags. -/
def encodeStats (s : Stats) : Json :=
  .obj [("total_commits", .num s.totalCommits), ("total_sessions", .num s.totalSessions),
    ("tasks_completed", .num s.tasksCompleted), ("uptime_seconds", .num s.uptimeSeconds)]

/-- JSON encoding of `AgentState`, with the source's field tags. -/
def encodeAgent (a : AgentState) : Json :=
  .obj [("id", .num a.id), ("role", .str a.role), ("container_id", .str a.containerID),
    ("status", .str a.status), ("sessions_completed", .num a.sessionsCompleted),
    ("last_activity", .str a.lastActivity),
    ("current_task", match a.currentTask with | none => .null | some t => .str t)]

/-- JSON encoding of `State`, with the source's field tags. -/
def encodeState (st : State) : Json :=
  .obj [("status", .str st.status), ("started_at", .str st.startedAt),
    ("project_name", .str st.projectName), ("agents", .arr (st.agents.map encodeAgent)),
    ("stats", encodeStats st.stats)]

/-- Decodes a string field (missing means the zero value, a non-string is
an error). -/
def decodeStr : Option Json → Option String
  | none => some ""
  | some (.str s) => some s
  | some _ => none

/-- Decodes an integer field. -/
def decodeInt : Option Json → Option Int
  | none => some 0
  | some (.num n) => some n
  | some _ => none

/-- Decodes a `time.Time` field: a missing field is the zero time and a
present one must be a valid RFC 3339 string. -/
def decodeTime : Option Json → Option String
  | none => some zeroTimeStr
  | some (.str s) => if (parseRFC3339 s).isSome then some s else none
  | some _ => none

/-- Decodes a `*string` field: missing or `null` is the nil pointer. -/
def decodeOptStr : Option Json → Option (Option String)
  | none => some none
  | some .null => some none
  | some (.str s) => some (some s)
  | some _ => none

/-- JSON decoding of `Stats`. -/
def decodeStats : Option Json → Option Stats
  | none => some ⟨0, 0, 0, 0⟩
  | some (.obj fields) =>
    (decodeInt (getField fields "total_commits")).bind fun tc =>
      (decodeInt (getField fields "total_sessions")).bind fun ts =>
        (decodeInt (getField fields "tasks_completed")).bind fun tk =>
          (decodeInt (getField fields "uptime_seconds")).map fun up => ⟨tc, ts, tk, up⟩
  | some _ => none

/-- JSON decoding of `AgentState`. -/
def decodeAgent : Json → Option AgentState
  | .obj fields =>
    (decodeInt (getField fields "id")).bind fun i =>
      (decodeStr (getField fields "role")).bind fun r =>
        (decodeStr (getField fields "container_id")).bind fun cid =>
          (decodeStr (getField fields "status")).bind fun st =>
            (decodeInt (getField fields "sessions_completed")).bind fun sc =>
              (decodeTime (getField fields "last_activity")).bind fun la =>
                (decodeOptStr (getField fields "current_task")).map fun ct =>
                  ⟨i, r, cid, st, sc, la, ct⟩
  | _ => none

/-- JSON decoding of the agents array (missing means the nil slice). -/
def decodeAgents : Option Json → Option (List AgentState)
  | none => some []
  | some (.arr xs) => xs.mapM decodeAgent
  | some _ => none

/-- JSON decoding of `State` (model of `json.Unmarshal` into
`daemon.State`). -/
def decodeState : Json → Option State
  | .obj fields =>
    (decodeStr (getField fields "status")).bind fun s =>
      (decodeTime (getField fields "started_at")).bind fun sa =>
        (decodeStr (getField fields "project_name")).bind fun pn =>
          (decodeAgents (getField fields "agents")).bind fun ags =>
            (decodeStats (getField fields "stats")).map fun sts =>
              ⟨s, sa, pn, ags, sts⟩
  | _ => none

/-- Valid states: the time fields carry well-formed RFC 3339
serializations (every state Go can hold satisfies this, since Go formats
times when marshalling). -/
def ValidState (st : State) : Prop :=
  (parseRFC3339 st.startedAt).isSome = true ∧
    ∀ a ∈ st.agents, (parseRFC3339 a.lastActivity).isSome = true

instance : DecidablePred ValidState := fun st => by
  unfold ValidState; infer_instance

/-! ### WriteState -/

/-- Contents of the state directory: the canonical `state.json` and the
temporary `state.json.tmp`, each possibly absent. -/
structure StateDir where
  canonical : Option Json
  tmp : Option Json
  deriving Repr, BEq

/-- Environment of one `WriteState` call: whether each file-system step
succeeds (`json.MarshalIndent` cannot fail on `daemon.State`). -/
structure WriteEnv where
  mkdirOk : Bool
  writeTmpOk : Bool
  renameOk : Bool
  deriving Repr, DecidableEq

/-- Environment of a fault-free write. -/
def writeOkEnv : WriteEnv := { mkdirOk := true, writeTmpOk := true, renameOk := true }

/-- Model of `daemon.WriteState`: serializes the state, writes it to the
temporary path next to the canonical one, then renames it over the
canonical path; a failed rename removes the temporary file.  Returns the
directory after the call and whether the call succeeded. -/
def writeState (env : WriteEnv) (fs : StateDir) (st : State) : StateDir × Bool :=
  let data := encodeState st
  if ¬ env.mkdirOk then (fs, false)
  else if ¬ env.writeTmpOk then (fs, false)
  else
    let fs1 : StateDir := { fs with tmp := some data }
    if ¬ env.renameOk then ({ fs1 with tmp := none }, false)
    else ({ canonical := some data, tmp := none }, true)

/-- Reading the canonical snapshot back (deserialization step of
`GetStatus`, without the liveness cross-check). -/
def readStateFile (fs : StateDir) : Option State :=
  fs.canonical.bind decodeState

/-! ### GetStatus, IsRunning and the liveness marker -/

/-- Environment of a liveness check: the contents of the PID file, if it
exists, and the machine's process table (`alive pid` is the model of
sending signal 0 to `pid`). -/
structure PidEnv where
  pidFile : Option String
  alive : Int → Bool

/-- Model of `daemon.readPID` applied to the marker's contents. -/
def readPIDContent (content : String) : Option Int :=
  goAtoi (goTrimSpace content)

/-- Model of `daemon.IsRunning`: the PID file exists, parses, and the
recorded process is signalable. -/
def isRunning (env : PidEnv) : Bool :=
  match env.pidFile with
  | none => false
  | some content =>
    match readPIDContent content with
    | none => false
    | some pid => env.alive pid

/-- Model of `daemon.GetStatus`: reads and parses `state.json`, then
downgrades `status` (and every agent's `running` status) to `stopped`
whenever the persisted file says `running` but the liveness marker shows no
live process. -/
def getStatus (env : PidEnv) (stateFile : Option Json) : Except String State :=
  match stateFile with
  | none => .error "daemon: failed to read state"
  | some j =>
    match decodeState j with
    | none => .error "daemon: failed to parse state"
    | some st =>
      if st.status == "running" && ! isRunning env then
        .ok { st with
          status := "stopped",
          agents := st.agents.map fun a =>
            if a.status == "running" then { a with status := "stopped" } else a }
      else
        .ok st

/-! ### normalizeStatus and updateAgentStates -/

/-- One entry of the container runtime's listing
(`docker.AgentInfo`). -/
structure AgentInfo where
  id : Int
  containerID : String
  status : String
  deriving Repr, DecidableEq

/-- Model of `daemon.normalizeStatus`: converts Docker status strings to
the daemon's simpler vocabulary. -/
def normalizeStatus (dockerStatus : String) : String :=
  let lower := dockerStatus.toLower
  if goContains lower "up" then "running"
  else if goContains lower "exited" then "exited"
  else if goContains lower "created" then "created"
  else "unknown"

/-- Lookup in the `infoMap` Go builds by iterating the listing: a later
entry with the same id overwrites an earlier one. -/
def infoFor (infos : List AgentInfo) (id : Int) : Option AgentInfo :=
  infos.reverse.find? fun i => i.id == id

/-- Model of `daemon.updateAgentStates`: syncs the runtime listing into the
agent states — a listed agent takes the reported container id and the
normalized status, an unlisted one is marked `stopped`. -/
def updateAgentStates (agents : List AgentState) (infos : List AgentInfo) : List AgentState :=
  agents.map fun a =>
    match infoFor infos a.id with
    | some info => { a with containerID := info.containerID, status := normalizeStatus info.status }
    | none => { a with status := "stopped" }

/-! ### The Stats-affecting steps of the monitor tick

Projection of `daemon.monitor` onto the fields of `Stats` and the
`prevCommitCount` cursor: step 4 (`countCommitsAndNotify`) assigns the
observed `git rev-list --count` output to `TotalCommits` when the command
succeeds, step 5 (`clearStaleTasksAndNotify`) adds the number of cleared
locks to `TasksCompleted`, and step 8 recomputes `UptimeSeconds` from the
tick's wall clock.  `TotalSessions` is not touched by any tick step.
Instants are in seconds for this projection.
-/

/-- Environment observed by one tick: the upstream commit count if
`git rev-list --count HEAD` succeeded, the task names cleared by
`ClearStaleTasks` (empty when it failed or cleared nothing), and the tick's
wall-clock instant. -/
structure TickObs where
  commitCount : Option Nat
  cleared : List String
  now : Int
  deriving Repr, DecidableEq

/-- The tick-visible counters: the daemon's `prevCommitCount` cursor and
its persisted `Stats`. -/
structure MonitorStats where
  prevCommitCount : Int
  stats : Stats
  deriving Repr, DecidableEq

/-- Counters at daemon start: zero (the initial `State` is written with a
zero `Stats` and the `Daemon` struct's cursor starts at zero). -/
def initialMonitorStats : MonitorStats :=
  { prevCommitCount := 0, stats := ⟨0, 0, 0, 0⟩ }

/-- Stats effect of one monitor tick. -/
def tickStats (startedAt : Int) (m : MonitorStats) (obs : TickObs) : MonitorStats :=
  let m1 :=
    match obs.commitCount with
    | none => m
    | some count =>
      { m with
        prevCommitCount := (count : Int),
        stats := { m.stats with totalCommits := (count : Int) } }
  let m2 :=
    { m1 with
      stats := { m1.stats with tasksCompleted := m1.stats.tasksCompleted + obs.cleared.length } }
  { m2 with stats := { m2.stats with uptimeSeconds := obs.now - startedAt } }

/-- Runs a sequence of ticks, returning the counters after each tick. -/
def runTicks (startedAt : Int) (m : MonitorStats) : List TickObs → List MonitorStats
  | [] => []
  | obs :: rest =>
    let m' := tickStats startedAt m obs
    m' :: runTicks startedAt m' rest

/-! ### gitops.SyncToProjectDir

Modelled from the spec: the implementation of `gitops.SyncToProjectDir` is
not among the provided sources (only its tests and callers are).  Per
§4.4: merge upstream's branch tip into the project directory's current
branch; on conflict the merge must be aborted, leaving the project
directory exactly as it was before the attempt, and the error surfaced
(the test expects the message to mention `merge failed` and
`.git/MERGE_HEAD` to be gone); on success return the newly-merged commit
subjects, empty if already up to date.
-/

/-- The user's project directory as a git checkout: its `HEAD` commit, its
working tree, and the `.git/MERGE_HEAD` marker of an in-progress merge. -/
structure ProjectRepo where
  head : Nat
  workingTree : List (String × String)
  mergeHead : Option Nat
  deriving Repr, DecidableEq

/-- Environment of one merge attempt: the upstream branch tip, the subjects
of the upstream commits the project branch lacks, whether the two sides
conflict, and the resulting trees of a completed or conflicted merge. -/
structure MergeEnv where
  upstreamTip : Nat
  newSubjects : List String
  conflict : Bool
  mergedTree : List (String × String)
  conflictedTree : List (String × String)
  deriving Repr, DecidableEq

/-- Modelled from the spec: the `git merge` step.  A conflicting merge
stops mid-way, leaving conflict markers in the tree and `MERGE_HEAD` in
place; a clean merge advances `HEAD` to the merged commit. -/
def mergeCommand (env : MergeEnv) (p : ProjectRepo) : ProjectRepo × Bool :=
  if env.conflict then
    ({ p with mergeHead := some env.upstreamTip, workingTree := env.conflictedTree }, false)
  else
    ({ head := env.upstreamTip, workingTree := env.mergedTree, mergeHead := none }, true)

/-- Modelled from the spec: `git merge --abort` restores the pre-merge
checkout and clears `MERGE_HEAD`. -/
def abortMerge (pre : ProjectRepo) : ProjectRepo :=
  { pre with mergeHead := none }

/-- Modelled from the spec: `gitops.SyncToProjectDir` merges upstream's tip
into the project directory, aborting on conflict and returning the
newly-merged commit subjects on success (empty when already up to
date). -/
def syncToProjectDir (env : MergeEnv) (p : ProjectRepo) :
    ProjectRepo × Except String (List String) :=
  if env.upstreamTip = p.head then (p, .ok [])
  else
    let (p1, merged) := mergeCommand env p
    if merged then (p1, .ok env.newSubjects)
    else (abortMerge p, .error "gitops: merge failed: merge conflict in project dir")

/-! ## Theorems

Supporting lemmas first, then one theorem per claim of the specification,
each with a closed witness where the theorem carries hypotheses.
-/

/-! ### Decimal round-trip lemmas -/

theorem natToChars_ne_nil (n : Nat) : natToChars n ≠ [] := by
  rw [natToChars]
  split <;> simp

theorem natToChars_digits (n : Nat) : ∀ c ∈ natToChars n, c.isDigit = true := by
  induction n using Nat.strong_induction_on with
  | _ n ih =>
    rw [natToChars]
    split
    · next h =>
      intro c hc
      simp only [List.mem_singleton] at hc
      subst hc
      interval_cases n <;> decide
    · next h =>
      intro c hc
      simp only [List.mem_append, List.mem_singleton] at hc
      rcases hc with hc | hc
      · exact ih (n / 10) (Nat.div_lt_self (by omega) (by omega)) c hc
      · subst hc
        have h10 : n % 10 < 10 := Nat.mod_lt n (by omega)
        interval_cases hm : n % 10 <;> simp_all <;> decide

theorem digitStep_digitChar (a d : Nat) (hd : d < 10) :
    digitStep (some a) (Nat.digitChar d) = some (a * 10 + d) := by
  interval_cases d <;> simp [digitStep] <;> decide

theorem foldl_digitStep_natToChars (n : Nat) :
    ∀ a, (natToChars n).foldl digitStep (some a) = some (a * 10 ^ (natToChars n).length + n) := by
  induction n using Nat.strong_induction_on with
  | _ n ih =>
    intro a
    rw [natToChars]
    split
    · next h =>
      simp only [List.foldl, List.length_singleton, pow_one]
      rw [digitStep_digitChar a n h]
    · next h =>
      rw [List.foldl_append, List.length_append, List.length_singleton]
      rw [ih (n / 10) (Nat.div_lt_self (by omega) (by omega)) a]
      simp only [List.foldl]
      rw [digitStep_digitChar _ _ (Nat.mod_lt n (by omega))]
      congr 1
      have hmod := Nat.div_add_mod n 10
      calc (a * 10 ^ (natToChars (n / 10)).length + n / 10) * 10 + n % 10
          = a * (10 ^ (natToChars (n / 10)).length * 10) + (10 * (n / 10) + n % 10) := by ring
        _ = a * 10 ^ ((natToChars (n / 10)).length + 1) + n := by rw [hmod, pow_succ]

theorem digitsToNat_natToChars (n : Nat) : digitsToNat (natToChars n) = some n := by
  cases hl : natToChars n with
  | nil => exact absurd hl (natToChars_ne_nil n)
  | cons c cs =>
    have : digitsToNat (c :: cs) = (c :: cs).foldl digitStep (some 0) := rfl
    rw [this, ← hl, foldl_digitStep_natToChars n 0]
    simp

theorem isDigit_ne_plus {c : Char} (h : c.isDigit = true) : (c == '+') = false := by
  rcases hb : c == '+' with _ | _
  · rfl
  · have : c = '+' := by exact eq_of_beq hb
    subst this
    exact absurd h (by decide)

theorem isDigit_ne_minus {c : Char} (h : c.isDigit = true) : (c == '-') = false := by
  rcases hb : c == '-' with _ | _
  · rfl
  · have : c = '-' := by exact eq_of_beq hb
    subst this
    exact absurd h (by decide)

theorem goAtoi_goItoa (i : Int) : goAtoi (goItoa i) = some i := by
  cases i with
  | ofNat n =>
    show goAtoi (String.mk (natToChars n)) = some (Int.ofNat n)
    cases hl : natToChars n with
    | nil => exact absurd hl (natToChars_ne_nil n)
    | cons c cs =>
      have hc : c.isDigit = true := natToChars_digits n c (by rw [hl]; simp)
      show (if (c == '+') = true then Option.map Int.ofNat (digitsToNat cs)
        else if (c == '-') = true then Option.map (fun n => -(n : Int)) (digitsToNat cs)
        else Option.map Int.ofNat (digitsToNat (c :: cs))) = some (Int.ofNat n)
      rw [isDigit_ne_plus hc, isDigit_ne_minus hc]
      simp only [if_false, Bool.false_eq_true]
      rw [← hl, digitsToNat_natToChars n]
      rfl
  | negSucc m =>
    show goAtoi (String.mk ('-' :: natToChars (m + 1))) = some (Int.negSucc m)
    have htl : (String.mk ('-' :: natToChars (m + 1))).toList = '-' :: natToChars (m + 1) := rfl
    simp only [goAtoi, htl]
    norm_num
    rw [digitsToNat_natToChars (m + 1)]
    simp [Int.negSucc_eq]

/-! ### Token extraction under an ownership tag -/

theorem takeWhile_append_all {p : Char → Bool} {l₁ : List Char} (l₂ : List Char)
    (h : ∀ a ∈ l₁, p a = true) : (l₁ ++ l₂).takeWhile p = l₁ ++ l₂.takeWhile p := by
  induction l₁ with
  | nil => simp
  | cons a l ih =>
    have ha : p a = true := h a (by simp)
    simp only [List.cons_append, List.takeWhile_cons, ha, if_true]
    rw [ih fun b hb => h b (by simp [hb])]

theorem takeWhile_all {p : Char → Bool} {l : List Char} (h : ∀ a ∈ l, p a = true) :
    l.takeWhile p = l := by
  simpa using takeWhile_append_all [] h

theorem dropWhile_append_decomp (p : Char → Bool) (l₁ l₂ : List Char) :
    (l₁ ++ l₂).dropWhile p =
      if (l₁.dropWhile p).isEmpty then l₂.dropWhile p else l₁.dropWhile p ++ l₂ := by
  induction l₁ with
  | nil => simp
  | cons a l ih =>
    simp only [List.cons_append, List.dropWhile_cons]
    by_cases ha : p a = true
    · simp only [ha, if_true, ih]
    · simp only [ha, if_false]
      simp at ha
      simp [List.dropWhile_cons, ha]

theorem dropWhile_all {p : Char → Bool} {l : List Char} (h : ∀ a ∈ l, p a = true) :
    l.dropWhile p = [] := by
  induction l with
  | nil => simp
  | cons a t ih =>
    simp only [List.dropWhile_cons, h a (by simp), if_true]
    exact ih fun b hb => h b (by simp [hb])

theorem dropWhile_not_head {p : Char → Bool} {c : Char} {l : List Char} (h : p c = false) :
    (c :: l).dropWhile p = c :: l := by
  simp [List.dropWhile_cons, h]

theorem goItoa_chars (i : Int) : ∀ c ∈ (goItoa i).toList, c.isDigit = true ∨ c = '-' := by
  cases i with
  | ofNat n =>
    intro c hc
    exact Or.inl (natToChars_digits n c hc)
  | negSucc m =>
    intro c hc
    rcases List.mem_cons.mp hc with hc | hc
    · exact Or.inr hc
    · exact Or.inl (natToChars_digits (m + 1) c hc)

theorem isDigit_not_space {c : Char} (h : c.isDigit = true) : isSpaceChar c = false := by
  rcases hs : isSpaceChar c with _ | _
  · rfl
  · exfalso
    simp only [isSpaceChar, Bool.or_eq_true, beq_iff_eq] at hs
    rcases hs with ((((h1 | h1) | h1) | h1) | h1) | h1 <;> subst h1 <;> exact absurd h (by decide)

theorem goItoa_not_space (i : Int) :
    ∀ c ∈ (goItoa i).toList, isSpaceChar c = false ∧ (c != ' ') = true := by
  intro c hc
  rcases goItoa_chars i c hc with h | h
  · refine ⟨isDigit_not_space h, ?_⟩
    have : c ≠ ' ' := by
      intro he
      subst he
      exact absurd h (by decide)
    simpa using this
  · subst h
    decide

theorem goItoa_toList_ne_nil (i : Int) : (goItoa i).toList ≠ [] := by
  cases i with
  | ofNat n => exact natToChars_ne_nil n
  | negSucc m => simp [goItoa]

theorem trimList_token_of_tag (idStr r : List Char) (hne : idStr ≠ [])
    (hd : ∀ c ∈ idStr, isSpaceChar c = false ∧ (c != ' ') = true) :
    (trimList ("agent-".toList ++ idStr ++ (' ' :: r))).takeWhile (· != ' ')
      = "agent-".toList ++ idStr := by
  have hA : "agent-".toList = ['a', 'g', 'e', 'n', 't', '-'] := rfl
  have hAspace : ∀ c ∈ "agent-".toList, isSpaceChar c = false := by rw [hA]; decide
  have hAtok : ∀ c ∈ "agent-".toList, (c != ' ') = true := by rw [hA]; decide
  unfold trimList
  -- leading trim: the first character 'a' is not white space
  have h1 : ("agent-".toList ++ idStr ++ (' ' :: r)).dropWhile isSpaceChar
      = "agent-".toList ++ idStr ++ (' ' :: r) := by
    rw [hA]
    exact dropWhile_not_head (by decide)
  rw [h1]
  -- trailing trim
  have h2 : ("agent-".toList ++ idStr ++ (' ' :: r)).reverse
      = (r.reverse ++ [' ']) ++ (idStr.reverse ++ "agent-".toList.reverse) := by
    simp [List.reverse_append]
  rw [h2]
  have hIrev : ∀ c ∈ idStr.reverse ++ "agent-".toList.reverse, isSpaceChar c = false := by
    intro c hc
    rcases List.mem_append.mp hc with hc | hc
    · exact (hd c (List.mem_reverse.mp hc)).1
    · exact hAspace c (List.mem_reverse.mp hc)
  have hIrevCons : ∃ x xs, idStr.reverse ++ "agent-".toList.reverse = x :: xs := by
    cases hi : idStr.reverse ++ "agent-".toList.reverse with
    | nil =>
      exfalso
      rcases List.append_eq_nil.mp hi with ⟨hi1, _⟩
      exact hne (by simpa using hi1)
    | cons x xs => exact ⟨x, xs, rfl⟩
  obtain ⟨x, xs, hxs⟩ := hIrevCons
  rw [dropWhile_append_decomp]
  by_cases hrr : (r.reverse ++ [' ']).dropWhile isSpaceChar = []
  · -- everything after the tag's space is white space
    rw [hrr]
    simp only [List.isEmpty_nil, if_true]
    rw [hxs, dropWhile_not_head (hIrev x (by rw [hxs]; simp)), ← hxs]
    rw [List.reverse_append, List.reverse_reverse, List.reverse_reverse]
    rw [takeWhile_append_all _ hAtok, takeWhile_all fun c hc => (hd c hc).2]
  · -- a non-space character survives at the end; the trimmed tail still
    -- begins (after reversal) with the tag's separating space
    have hne' : ¬ ((r.reverse ++ [' ']).dropWhile isSpaceChar).isEmpty = true := by
      simpa [List.isEmpty_iff] using hrr
    simp only [hne', Bool.false_eq_true, if_false]
    set dr := (r.reverse ++ [' ']).dropWhile isSpaceChar with hdr
    have hlast : dr.getLast? = some ' ' := by
      obtain ⟨t, ht⟩ : dr <:+ r.reverse ++ [' '] := List.dropWhile_suffix isSpaceChar
      have h3 : (t ++ dr).getLast? = dr.getLast? := List.getLast?_append_of_ne_nil t hrr
      rw [ht] at h3
      rw [← h3, List.getLast?_concat]
    obtain ⟨z, zs, hz⟩ : ∃ z zs, dr.reverse = z :: zs := by
      cases hq : dr.reverse with
      | nil =>
        exfalso
        exact hrr (by simpa using congrArg List.reverse hq)
      | cons z zs => exact ⟨z, zs, rfl⟩
    have hzsp : z = ' ' := by
      have hh : dr.reverse.head? = dr.getLast? := List.head?_reverse dr
      rw [hz, hlast] at hh
      simpa using hh
    rw [List.reverse_append, List.reverse_append, List.reverse_reverse, List.reverse_reverse]
    rw [hz, hzsp]
    simp only [List.append_assoc]
    rw [takeWhile_append_all _ hAtok, takeWhile_append_all _ fun a ha => (hd a ha).2]
    simp [List.takeWhile_cons]

theorem recordedOwner_of_tag (id : Int) (c : String)
    (h : goStartsWith c ("agent-" ++ goItoa id ++ " ") = true) :
    recordedOwner c = some id := by
  have hpre : ("agent-" ++ goItoa id ++ " ").toList <+: c.toList :=
    List.isPrefixOf_iff_prefix.mp h
  obtain ⟨r, hr⟩ := hpre
  have htl : ("agent-" ++ goItoa id ++ " ").toList
      = "agent-".toList ++ (goItoa id).toList ++ [' '] := by
    simp [String.toList, String.data_append]
  have hc : c.toList = "agent-".toList ++ (goItoa id).toList ++ (' ' :: r) := by
    rw [← hr, htl]
    simp [List.append_assoc]
  unfold recordedOwner
  rw [hc]
  rw [trimList_token_of_tag (goItoa id).toList r (goItoa_toList_ne_nil id) (goItoa_not_space id)]
  unfold goTrimLeading
  have hpre2 : ("agent-".toList.isPrefixOf
      (String.mk ("agent-".toList ++ (goItoa id).toList)).toList) = true :=
    List.isPrefixOf_iff_prefix.mpr (List.prefix_append _ _)
  rw [if_pos hpre2]
  show goAtoi (String.mk (List.drop "agent-".toList.length
    ("agent-".toList ++ (goItoa id).toList))) = some id
  rw [List.drop_left]
  show goAtoi (goItoa id) = some id
  exact goAtoi_goItoa id

/-! ### C3: ReleaseTask ownership -/

/-- Claim C3: for every task name, agent id and lock-record content,
`ReleaseTask` returns an ownership error and deletes nothing whenever the
lock record's recorded owner is not the calling agent; it deletes the lock
record, commits and pushes only when the record was written by the calling
agent (and does exactly that when its effects succeed). -/
theorem releaseTask_ownership_spec (env : ReleaseEnv) (dir : LockDir) (task : String)
    (id : Int) (c : String) (hlook : lookupFile dir (task ++ ".lock") = some c) :
    (recordedOwner c ≠ some id →
      releaseTask env dir task id =
        ⟨dir, false, false,
          .err ("tasks: lock for " ++ task ++ " is not owned by agent-" ++ goItoa id)⟩) ∧
    (((releaseTask env dir task id).lockDir ≠ dir ∨
        (releaseTask env dir task id).committed = true ∨
        (releaseTask env dir task id).pushed = true) →
      recordedOwner c = some id) ∧
    (goStartsWith c ("agent-" ++ goItoa id ++ " ") = true → env = ⟨true, true, true, true⟩ →
      releaseTask env dir task id = ⟨removeFile dir (task ++ ".lock"), true, true, .ok⟩) := by
  unfold releaseTask
  rw [hlook]
  by_cases hs : goStartsWith c ("agent-" ++ goItoa id ++ " ") = true
  · have hro := recordedOwner_of_tag id c hs
    simp only [hs, not_true, if_neg (by simp : ¬ ¬ True)]
    refine ⟨fun hneq => absurd hro hneq, fun _ => hro, fun _ henv => ?_⟩
    subst henv
    simp
  · have hs' : goStartsWith c ("agent-" ++ goItoa id ++ " ") = false := by
      simpa using hs
    simp only [hs']
    refine ⟨fun _ => by simp, fun hdel => ?_, fun htag _ => by simp at htag⟩
    simp at hdel

/-- Closed witness for C3: agent 2 cannot release agent 1's lock, and
nothing is deleted, committed or pushed. -/
theorem releaseTask_ownership_spec_witness :
    releaseTask ⟨true, true, true, true⟩ [("t.lock", "agent-1 1970-01-01T00:00:00Z")] "t" 2 =
      ⟨[("t.lock", "agent-1 1970-01-01T00:00:00Z")], false, false,
        .err ("tasks: lock for " ++ "t" ++ " is not owned by agent-" ++ goItoa 2)⟩ :=
  (releaseTask_ownership_spec ⟨true, true, true, true⟩
    [("t.lock", "agent-1 1970-01-01T00:00:00Z")] "t" 2 "agent-1 1970-01-01T00:00:00Z"
    (by decide)).1 (by decide)

/-! ### C2: ClaimTask outcome classification -/

theorem claimTask_clean_won {remote : Remote} {a : AgentRepo} (task : String) (id : Int)
    (ts : String) (h : a.syncedHead = remote.head) :
    claimTask cleanEnv remote a task id ts =
      (⟨remote.head + 1, setFile a.lockDir (task ++ ".lock") ("agent-" ++ goItoa id ++ " " ++ ts)⟩,
       ⟨remote.head + 1, setFile a.lockDir (task ++ ".lock") ("agent-" ++ goItoa id ++ " " ++ ts)⟩,
       .won) := by
  unfold claimTask cleanEnv
  simp [h]

theorem claimTask_clean_lost {remote : Remote} {a : AgentRepo} (task : String) (id : Int)
    (ts : String) (h : a.syncedHead ≠ remote.head) :
    claimTask cleanEnv remote a task id ts = (remote, rollback remote, .lost) := by
  have hrej : goContains rejectedStderr "rejected" = true := by decide
  unfold claimTask cleanEnv
  simp [h, hrej]

/-- Claim C2: a `ClaimTask` call returns won exactly when the push carrying
the lock record is accepted by the remote; a push rejected as a
non-fast-forward or conflict loses without error, after rolling the local
working state back to the remote's accepted history; any other push failure
is an error. -/
theorem claimTask_outcome_spec (env : ClaimEnv) (remote : Remote) (a : AgentRepo)
    (task : String) (id : Int) (ts : String) :
    ((claimTask env remote a task id ts).2.2 = .won ↔
      (env.mkdirOk = true ∧ env.writeOk = true ∧ env.addOk = true ∧ env.commitOk = true ∧
        env.pushInfra = none ∧ a.syncedHead = remote.head)) ∧
    (env.mkdirOk = true → env.writeOk = true → env.addOk = true → env.commitOk = true →
      env.pushInfra = none → a.syncedHead ≠ remote.head →
      claimTask env remote a task id ts = (remote, rollback remote, .lost)) ∧
    (∀ stderr, env.mkdirOk = true → env.writeOk = true → env.addOk = true → env.commitOk = true →
      env.pushInfra = some stderr →
      (goContains stderr "rejected" || goContains stderr "conflict") = true →
      claimTask env remote a task id ts = (remote, rollback remote, .lost)) ∧
    (∀ stderr, env.mkdirOk = true → env.writeOk = true → env.addOk = true → env.commitOk = true →
      env.pushInfra = some stderr →
      (goContains stderr "rejected" || goContains stderr "conflict") = false →
      (claimTask env remote a task id ts).2.2 = .err "tasks: failed to push lock file") := by
  obtain ⟨mk, w, ad, cm, pi⟩ := env
  cases mk <;> cases w <;> cases ad <;> cases cm <;>
    first
      | (refine ⟨?_, ?_, ?_, ?_⟩ <;> simp [claimTask]; done)
      | skip
  cases pi with
  | none =>
    by_cases h : a.syncedHead = remote.head
    · refine ⟨?_, ?_, ?_, ?_⟩ <;> simp [claimTask, h]
    · have hrej : goContains rejectedStderr "rejected" = true := by decide
      refine ⟨?_, ?_, ?_, ?_⟩ <;> simp [claimTask, h, hrej]
  | some stderr =>
    rcases hr : goContains stderr "rejected" with _ | _ <;>
      rcases hcf : goContains stderr "conflict" with _ | _ <;>
        (refine ⟨?_, ?_, ?_, ?_⟩ <;> simp [claimTask, hr, hcf])

/-- Closed witness for C2: a fast-forward push wins; a stale clone loses
with a rollback; a push failing with a rejection stderr loses; a network
failure is an error. -/
theorem claimTask_outcome_spec_witness :
    (claimTask cleanEnv ⟨0, []⟩ ⟨0, []⟩ "fix-bug" 1 "1970-01-01T00:00:00Z").2.2 = .won ∧
    claimTask cleanEnv ⟨1, []⟩ ⟨0, []⟩ "fix-bug" 2 "1970-01-01T00:00:00Z" =
      (⟨1, []⟩, rollback ⟨1, []⟩, .lost) ∧
    claimTask ⟨true, true, true, true, some "! [rejected] main -> main"⟩ ⟨0, []⟩ ⟨0, []⟩
        "fix-bug" 1 "ts" = (⟨0, []⟩, rollback ⟨0, []⟩, .lost) ∧
    (claimTask ⟨true, true, true, true, some "connection refused"⟩ ⟨0, []⟩ ⟨0, []⟩
        "fix-bug" 1 "ts").2.2 = .err "tasks: failed to push lock file" := by
  refine ⟨?_, ?_, ?_, ?_⟩
  · exact (claimTask_outcome_spec cleanEnv ⟨0, []⟩ ⟨0, []⟩ "fix-bug" 1
      "1970-01-01T00:00:00Z").1.mpr (by decide)
  · exact (claimTask_outcome_spec cleanEnv ⟨1, []⟩ ⟨0, []⟩ "fix-bug" 2
      "1970-01-01T00:00:00Z").2.1 rfl rfl rfl rfl rfl (by decide)
  · exact (claimTask_outcome_spec ⟨true, true, true, true, some "! [rejected] main -> main"⟩
      ⟨0, []⟩ ⟨0, []⟩ "fix-bug" 1 "ts").2.2.1 "! [rejected] main -> main"
      rfl rfl rfl rfl rfl (by decide)
  · exact (claimTask_outcome_spec ⟨true, true, true, true, some "connection refused"⟩
      ⟨0, []⟩ ⟨0, []⟩ "fix-bug" 1 "ts").2.2.2 "connection refused"
      rfl rfl rfl rfl rfl (by decide)

/-! ### C1: mutual exclusion of concurrent claims -/

theorem runRace_all_lost (task ts : String) :
    ∀ (ids : List Int) (remote : Remote) (a0 : AgentRepo), a0.syncedHead ≠ remote.head →
      runRace remote a0 task ts ids = (remote, List.replicate ids.length .lost) := by
  intro ids
  induction ids with
  | nil => intro remote a0 _; rfl
  | cons id rest ih =>
    intro remote a0 h
    show runRace remote a0 task ts (id :: rest) = _
    unfold runRace
    rw [claimTask_clean_lost task id ts h]
    simp only
    rw [ih remote a0 h]
    rfl

theorem keysNodup_setFile (dir : LockDir) (name content : String) (h : keysNodup dir) :
    keysNodup (setFile dir name content) := by
  unfold keysNodup setFile
  rw [List.map_append]
  apply List.Nodup.append
  · exact h.sublist (List.Sublist.map Prod.fst (List.filter_sublist dir))
  · simp
  · intro x hx hy
    simp only [List.map_cons, List.map_nil, List.mem_singleton] at hy
    subst hy
    obtain ⟨e, he, hex⟩ := List.mem_map.mp hx
    have := (List.mem_filter.mp he).2
    rw [hex] at this
    simp at this

theorem countP_setFile_self (dir : LockDir) (name content : String) :
    ((setFile dir name content).countP fun e => e.1 == name) = 1 := by
  unfold setFile
  rw [List.countP_append]
  have h1 : ((dir.filter fun e => e.1 ≠ name).countP fun e => e.1 == name) = 0 := by
    rw [List.countP_eq_zero]
    intro e he
    have := (List.mem_filter.mp he).2
    simpa using this
  rw [h1]
  simp [List.countP_cons]

/-- Claim C1: when K agents, all cloned from the same accepted remote
state, attempt to claim the same task concurrently (in the remote's total
push order), exactly one call wins and the remaining K−1 lose; the accepted
repository state never holds two live lock files for one task name, and it
holds exactly one for the raced task afterwards. -/
theorem claim_race_mutual_exclusion (remote : Remote) (a0 : AgentRepo) (task ts : String)
    (ids : List Int) (hsync : a0.syncedHead = remote.head)
    (hclone : a0.lockDir = remote.lockDir) (hK : 2 ≤ ids.length)
    (hnodup : keysNodup remote.lockDir) :
    (runRace remote a0 task ts ids).2.count .won = 1 ∧
    (runRace remote a0 task ts ids).2.count .lost = ids.length - 1 ∧
    keysNodup (runRace remote a0 task ts ids).1.lockDir ∧
    ((runRace remote a0 task ts ids).1.lockDir.countP fun e => e.1 == task ++ ".lock") = 1 := by
  cases ids with
  | nil => simp at hK
  | cons id rest =>
    have hstep := claimTask_clean_won task id ts hsync
    have hrun : runRace remote a0 task ts (id :: rest) =
        (⟨remote.head + 1,
          setFile a0.lockDir (task ++ ".lock") ("agent-" ++ goItoa id ++ " " ++ ts)⟩,
         .won :: List.replicate rest.length .lost) := by
      unfold runRace
      rw [hstep]
      simp only
      rw [runRace_all_lost task ts rest _ a0 (by rw [hsync]; simp)]
    rw [hrun]
    refine ⟨?_, ?_, ?_, ?_⟩
    · simp [List.count_cons, List.count_replicate]
    · simp [List.count_cons, List.count_replicate]
    · exact keysNodup_setFile _ _ _ (hclone ▸ hnodup)
    · exact countP_setFile_self _ _ _

/-- Closed witness for C1: three agents race for one task from the same
clone of an empty remote. -/
theorem claim_race_mutual_exclusion_witness :
    (runRace ⟨0, []⟩ ⟨0, []⟩ "fix-bug" "1970-01-01T00:00:00Z" [1, 2, 3]).2.count .won = 1 ∧
    (runRace ⟨0, []⟩ ⟨0, []⟩ "fix-bug" "1970-01-01T00:00:00Z" [1, 2, 3]).2.count .lost = 2 ∧
    keysNodup (runRace ⟨0, []⟩ ⟨0, []⟩ "fix-bug" "1970-01-01T00:00:00Z" [1, 2, 3]).1.lockDir ∧
    (((runRace ⟨0, []⟩ ⟨0, []⟩ "fix-bug" "1970-01-01T00:00:00Z" [1, 2, 3]).1.lockDir.countP
      fun e => e.1 == "fix-bug" ++ ".lock") = 1) :=
  claim_race_mutual_exclusion ⟨0, []⟩ ⟨0, []⟩ "fix-bug" "1970-01-01T00:00:00Z" [1, 2, 3]
    rfl rfl (by decide) (by unfold keysNodup; simp)

/-! ### C7: ListTasks robustness -/

theorem listEntries_cons (n c : String) (rest : List (String × String)) :
    listEntries ((n, c) :: rest) =
      if goEndsWith n ".lock" then
        match parseLock n c with
        | .error e => .error e
        | .ok lock =>
          match listEntries rest with
          | .error e => .error e
          | .ok locks => .ok (lock :: locks)
      else listEntries rest := rfl

theorem listEntries_filter (entries : List (String × String)) :
    listEntries entries = listEntries (entries.filter fun e => goEndsWith e.1 ".lock") := by
  induction entries with
  | nil => rfl
  | cons e rest ih =>
    obtain ⟨n, c⟩ := e
    by_cases h : goEndsWith n ".lock" = true
    · simp only [List.filter_cons, h, if_true]
      rw [listEntries_cons, listEntries_cons, h, ih]
    · have h' : goEndsWith n ".lock" = false := by simpa using h
      simp only [List.filter_cons, h', Bool.false_eq_true, if_false]
      rw [listEntries_cons, h']
      simp only [Bool.false_eq_true, if_false]
      exact ih

theorem listEntries_error_of_mem (entries : List (String × String)) (n c : String)
    (hmem : (n, c) ∈ entries) (hlock : goEndsWith n ".lock" = true)
    (e : String) (herr : parseLock n c = .error e) :
    ∃ msg, listEntries entries = .error msg := by
  induction entries with
  | nil => simp at hmem
  | cons hd rest ih =>
    obtain ⟨hn, hc⟩ := hd
    rcases List.mem_cons.mp hmem with hhd | hrest
    · obtain ⟨rfl, rfl⟩ := Prod.mk.injEq .. ▸ hhd
      rw [listEntries_cons, hlock]
      simp only [if_true]
      rw [herr]
      exact ⟨e, rfl⟩
    · obtain ⟨msg, hmsg⟩ := ih hrest
      rw [listEntries_cons]
      by_cases hl : goEndsWith hn ".lock" = true
      · rw [hl]
        simp only [if_true]
        cases hp : parseLock hn hc with
        | error e2 => exact ⟨e2, rfl⟩
        | ok lock =>
          rw [hmsg]
          exact ⟨msg, rfl⟩
      · have hl' : goEndsWith hn ".lock" = false := by simpa using hl
        rw [hl']
        simp only [Bool.false_eq_true, if_false]
        exact ⟨msg, hmsg⟩

/-- Decoding of one directory entry, as `ListTasks` treats it: `none` for
a non-lock name, the parsed lock otherwise (when it parses). -/
def decodeEntry (e : String × String) : Option TaskLock :=
  if goEndsWith e.1 ".lock" then (parseLock e.1 e.2).toOption else none

theorem listEntries_ok_decodes (entries : List (String × String)) (locks : List TaskLock)
    (h : listEntries entries = .ok locks) :
    locks = entries.filterMap decodeEntry := by
  induction entries generalizing locks with
  | nil =>
    simp only [listEntries] at h
    cases h
    simp
  | cons hd rest ih =>
    obtain ⟨hn, hc⟩ := hd
    rw [listEntries_cons] at h
    by_cases hl : goEndsWith hn ".lock" = true
    · rw [hl] at h
      simp only [if_true] at h
      cases hp : parseLock hn hc with
      | error e2 => rw [hp] at h; cases h
      | ok lock =>
        rw [hp] at h
        cases hr : listEntries rest with
        | error e2 => rw [hr] at h; cases h
        | ok locks2 =>
          rw [hr] at h
          cases h
          have hf : decodeEntry (hn, hc) = some lock := by
            simp [decodeEntry, hl, hp, Except.toOption]
          simp only [List.filterMap_cons, hf]
          rw [ih locks2 hr]
    · have hl' : goEndsWith hn ".lock" = false := by simpa using hl
      rw [hl'] at h
      simp only [Bool.false_eq_true, if_false] at h
      have hf : decodeEntry (hn, hc) = none := by
        simp [decodeEntry, hl']
      simp only [List.filterMap_cons, hf]
      exact ih locks h

/-- Claim C7: `ListTasks` returns the decoded set of all `.lock` files,
ignoring non-lock files; a missing lock directory yields an empty result
with no error; a malformed lock record makes it return a hard error; and
listing twice with no intervening writes returns identical results. -/
theorem listTasks_robustness :
    (listTasks none = .ok []) ∧
    (∀ entries, listTasks (some entries) =
      listTasks (some (entries.filter fun e => goEndsWith e.1 ".lock"))) ∧
    (∀ entries locks, listTasks (some entries) = .ok locks →
      locks = entries.filterMap decodeEntry) ∧
    (∀ entries n c e, (n, c) ∈ entries → goEndsWith n ".lock" = true →
      parseLock n c = .error e → ∃ msg, listTasks (some entries) = .error msg) ∧
    (∀ dir, listTasks dir = listTasks dir) :=
  ⟨rfl, fun entries => listEntries_filter entries,
   fun entries locks h => listEntries_ok_decodes entries locks h,
   fun entries n c e hmem hlock herr => listEntries_error_of_mem entries n c hmem hlock e herr,
   fun _ => rfl⟩

/-- Closed witness for C7: a directory holding a stray `.gitkeep` and a
valid lock decodes to one task, and a malformed record is a hard error. -/
theorem listTasks_robustness_witness :
    [(".gitkeep", ""), ("a.lock", "agent-1 2025-06-15T10:00:00Z")].filterMap decodeEntry =
      [{ name := "a", agentID := 1, claimedAt := 1749981600000000000 }] ∧
    (∃ msg, listTasks (some [("bad.lock", "garbage")]) = .error msg) := by
  constructor
  · have h := listTasks_robustness.2.2.1
      [(".gitkeep", ""), ("a.lock", "agent-1 2025-06-15T10:00:00Z")]
      [{ name := "a", agentID := 1, claimedAt := 1749981600000000000 }] rfl
    exact h.symm
  · exact listTasks_robustness.2.2.2.1 [("bad.lock", "garbage")] "bad.lock" "garbage"
      "tasks: malformed lock file bad.lock" (by simp) (by decide) rfl

/-! ### C6: ClearStaleTasks expiry boundary -/

/-- The decision `ClearStaleTasks` takes for one entry: it is removed
exactly when it is a lock file whose record's age relative to `now`
strictly exceeds `maxAge`. -/
def staleEntry (now maxAge : Int) (e : String × String) : Bool :=
  goEndsWith e.1 ".lock" &&
    match parseLock e.1 e.2 with
    | .ok lock => decide (now - lock.claimedAt > maxAge)
    | .error _ => false

theorem parseLock_ok_name (n c : String) (lock : TaskLock) (h : parseLock n c = .ok lock) :
    lock.name = goTrimSuffix n ".lock" := by
  unfold parseLock at h
  rcases hs : splitN2 (goTrimSpace c) with _ | ⟨p0, _ | ⟨p1, _ | ⟨p2, ps⟩⟩⟩ <;> rw [hs] at h <;>
    dsimp only at h
  · cases h
  · cases h
  · rcases ha : goAtoi (goTrimLeading p0 "agent-") with _ | id <;> rw [ha] at h
    · cases h
    · rcases ht : parseRFC3339 p1 with _ | t <;> rw [ht] at h
      · cases h
      · cases h
        rfl
  · cases h

theorem clearStaleEntries_cons (now maxAge : Int) (n c : String)
    (rest : List (String × String)) :
    clearStaleEntries now maxAge ((n, c) :: rest) =
      if goEndsWith n ".lock" then
        match parseLock n c with
        | .error e => ((n, c) :: rest, .error e)
        | .ok lock =>
          let (rest', res) := clearStaleEntries now maxAge rest
          if now - lock.claimedAt > maxAge then
            (rest', res.map fun names => lock.name :: names)
          else
            ((n, c) :: rest', res)
      else
        let (rest', res) := clearStaleEntries now maxAge rest
        ((n, c) :: rest', res) := rfl

theorem clearStaleEntries_spec (now maxAge : Int) (entries : List (String × String))
    (h : ∀ e ∈ entries, goEndsWith e.1 ".lock" = true → ∃ lock, parseLock e.1 e.2 = .ok lock) :
    clearStaleEntries now maxAge entries =
      (entries.filter fun e => ! staleEntry now maxAge e,
       .ok ((entries.filter (staleEntry now maxAge)).map fun e => goTrimSuffix e.1 ".lock")) := by
  induction entries with
  | nil => rfl
  | cons e rest ih =>
    obtain ⟨n, c⟩ := e
    have hrest : ∀ e ∈ rest, goEndsWith e.1 ".lock" = true →
        ∃ lock, parseLock e.1 e.2 = .ok lock :=
      fun e he hl => h e (List.mem_cons_of_mem _ he) hl
    rw [clearStaleEntries_cons]
    by_cases hl : goEndsWith n ".lock" = true
    · obtain ⟨lock, hp⟩ := h (n, c) (by simp) hl
      rw [hl]
      simp only [if_true]
      rw [hp]
      by_cases hage : now - lock.claimedAt > maxAge
      · have hst : staleEntry now maxAge (n, c) = true := by
          simp [staleEntry, hl, hp, hage]
        rw [ih hrest]
        simp only [hage, if_true, Except.map]
        simp only [List.filter_cons, hst, Bool.not_true, Bool.false_eq_true, if_false, if_true,
          List.map_cons]
        rw [parseLock_ok_name n c lock hp]
      · have hst : staleEntry now maxAge (n, c) = false := by
          simp [staleEntry, hl, hp, hage]
        rw [ih hrest]
        simp only [hage, if_false]
        simp only [List.filter_cons, hst, Bool.not_false, Bool.false_eq_true, if_true, if_false]
    · have hl' : goEndsWith n ".lock" = false := by simpa using hl
      have hst : staleEntry now maxAge (n, c) = false := by
        simp [staleEntry, hl']
      rw [hl']
      simp only [Bool.false_eq_true, if_false]
      rw [ih hrest]
      simp only [List.filter_cons, hst, Bool.not_false, Bool.false_eq_true, if_true, if_false]

/-- Claim C6: with every lock record well formed, `ClearStaleTasks` removes
exactly the locks whose age relative to the caller's clock strictly exceeds
`maxAge` and returns exactly their task names; a lock whose age equals the
threshold is not expired, and every younger lock is left untouched; a
missing directory yields no error and no cleared names. -/
theorem clearStaleTasks_expiry_boundary (entries : List (String × String)) (now maxAge : Int)
    (h : ∀ e ∈ entries, goEndsWith e.1 ".lock" = true → ∃ lock, parseLock e.1 e.2 = .ok lock) :
    clearStaleTasks (some entries) now maxAge =
      (some (entries.filter fun e => ! staleEntry now maxAge e),
       .ok ((entries.filter (staleEntry now maxAge)).map fun e => goTrimSuffix e.1 ".lock")) ∧
    (∀ e lock, e ∈ entries → parseLock e.1 e.2 = .ok lock → now - lock.claimedAt ≤ maxAge →
      e ∈ entries.filter fun e => ! staleEntry now maxAge e) ∧
    (∀ e lock, e ∈ entries → goEndsWith e.1 ".lock" = true → parseLock e.1 e.2 = .ok lock →
      now - lock.claimedAt > maxAge →
      (e ∉ entries.filter fun e => ! staleEntry now maxAge e) ∧
        goTrimSuffix e.1 ".lock" ∈
          (entries.filter (staleEntry now maxAge)).map fun e => goTrimSuffix e.1 ".lock") ∧
    clearStaleTasks none now maxAge = (none, .ok []) := by
  refine ⟨?_, ?_, ?_, rfl⟩
  · show (let (entries', res) := clearStaleEntries now maxAge entries
      ((some entries' : Option (List (String × String))), res)) = _
    rw [clearStaleEntries_spec now maxAge entries h]
  · intro e lock he hp hage
    have hst : staleEntry now maxAge e = false := by
      obtain ⟨n, c⟩ := e
      simp only [staleEntry, hp]
      simp [hage, not_lt.mpr hage]
    rw [List.mem_filter]
    exact ⟨he, by simp [hst]⟩
  · intro e lock he hl hp hage
    have hst : staleEntry now maxAge e = true := by
      obtain ⟨n, c⟩ := e
      simp only [staleEntry, hp]
      simp [hl, hage]
    constructor
    · intro hmem
      have := (List.mem_filter.mp hmem).2
      rw [hst] at this
      simp at this
    · exact List.mem_map.mpr ⟨e, List.mem_filter.mpr ⟨he, hst⟩, rfl⟩

/-- Closed witness for C6: with a two-hour threshold, a three-hour-old lock
is cleared, a lock exactly at the threshold survives, and a five-minute-old
lock survives. -/
theorem clearStaleTasks_expiry_boundary_witness :
    clearStaleTasks
      (some [("old-task.lock", "agent-1 1970-01-01T00:00:00Z"),
        ("edge-task.lock", "agent-2 1970-01-01T01:00:00Z"),
        ("new-task.lock", "agent-3 1970-01-01T02:55:00Z")])
      (3 * 3600 * 1000000000) (2 * 3600 * 1000000000) =
      (some [("edge-task.lock", "agent-2 1970-01-01T01:00:00Z"),
        ("new-task.lock", "agent-3 1970-01-01T02:55:00Z")],
       .ok ["old-task"]) := by
  have h := (clearStaleTasks_expiry_boundary
    [("old-task.lock", "agent-1 1970-01-01T00:00:00Z"),
     ("edge-task.lock", "agent-2 1970-01-01T01:00:00Z"),
     ("new-task.lock", "agent-3 1970-01-01T02:55:00Z")]
    (3 * 3600 * 1000000000) (2 * 3600 * 1000000000)
    (by
      intro e he hl
      simp only [List.mem_cons, List.not_mem_nil, or_false] at he
      rcases he with rfl | rfl | rfl
      · exact ⟨_, rfl⟩
      · exact ⟨_, rfl⟩
      · exact ⟨_, rfl⟩)).1
  rw [h]
  rfl

/-! ### C4: WriteState atomicity and round-trip -/

theorem decodeStats_encodeStats (s : Stats) : decodeStats (some (encodeStats s)) = some s := rfl

theorem decodeAgent_encodeAgent (a : AgentState)
    (hval : (parseRFC3339 a.lastActivity).isSome = true) :
    decodeAgent (encodeAgent a) = some a := by
  obtain ⟨i, r, cid, st, sc, la, ct⟩ := a
  simp only at hval
  cases ct with
  | none =>
    simp [decodeAgent, encodeAgent, getField, decodeStr, decodeInt, decodeTime, decodeOptStr, hval]
  | some t =>
    simp [decodeAgent, encodeAgent, getField, decodeStr, decodeInt, decodeTime, decodeOptStr, hval]

theorem decodeAgents_encode (agents : List AgentState)
    (hval : ∀ a ∈ agents, (parseRFC3339 a.lastActivity).isSome = true) :
    (agents.map encodeAgent).mapM decodeAgent = some agents := by
  induction agents with
  | nil => rfl
  | cons a rest ih =>
    rw [List.map_cons, List.mapM_cons]
    rw [decodeAgent_encodeAgent a (hval a (by simp))]
    rw [ih fun b hb => hval b (by simp [hb])]
    rfl

theorem decodeState_encodeState (st : State) (hval : ValidState st) :
    decodeState (encodeState st) = some st := by
  obtain ⟨hsa, hags⟩ := hval
  obtain ⟨s, sa, pn, ags, sts⟩ := st
  simp only at hsa hags
  have hagents : decodeAgents (some (.arr (ags.map encodeAgent))) = some ags := by
    show (ags.map encodeAgent).mapM decodeAgent = some ags
    exact decodeAgents_encode ags hags
  simp [decodeState, encodeState, getField, decodeStr, decodeTime, hsa, hagents,
    decodeStats_encodeStats]

/-- Claim C4: `WriteState` serializes the state, writes it to a temporary
path next to the canonical one and atomically renames it over the canonical
path; when the write succeeds a subsequent read returns exactly the written
state and no temporary file is left behind; when any step fails the
previous canonical snapshot is left intact (the temporary file is never
partially renamed into place). -/
theorem writeState_atomic_roundtrip (env : WriteEnv) (fs : StateDir) (st : State)
    (hval : ValidState st) :
    ((writeState env fs st).2 = true →
      (writeState env fs st).1.canonical = some (encodeState st) ∧
      (writeState env fs st).1.tmp = none ∧
      readStateFile (writeState env fs st).1 = some st) ∧
    ((writeState env fs st).2 = false →
      (writeState env fs st).1.canonical = fs.canonical) := by
  obtain ⟨mk, w, rn⟩ := env
  have hdec := decodeState_encodeState st hval
  cases mk <;> cases w <;> cases rn <;>
    refine ⟨fun h => ?_, fun h => ?_⟩ <;>
      simp_all [writeState, readStateFile]

/-- Sample state used by the C4 witness. -/
def sampleStateA : State :=
  { status := "running",
    startedAt := "2025-06-15T10:00:00Z",
    projectName := "test-project",
    agents := [⟨1, "developer", "abc123", "running", 3, "2025-06-15T11:00:00Z",
      some "implement-auth"⟩],
    stats := ⟨42, 10, 5, 3600⟩ }

/-- Closed witness for C4: a fault-free write round-trips the sample state,
and a write whose rename fails leaves the previous snapshot in place. -/
theorem writeState_atomic_roundtrip_witness :
    readStateFile (writeState writeOkEnv ⟨none, none⟩ sampleStateA).1 = some sampleStateA ∧
    (writeState ⟨true, true, false⟩ ⟨some (.str "old"), none⟩ sampleStateA).1.canonical =
      some (.str "old") := by
  have hval : ValidState sampleStateA := by
    refine ⟨rfl, ?_⟩
    intro a ha
    simp only [sampleStateA, List.mem_singleton] at ha
    subst ha
    rfl
  constructor
  · exact ((writeState_atomic_roundtrip writeOkEnv ⟨none, none⟩ sampleStateA hval).1 rfl).2.2
  · exact (writeState_atomic_roundtrip ⟨true, true, false⟩ ⟨some (.str "old"), none⟩ sampleStateA
      hval).2 rfl

/-! ### C5: liveness downgrade on read -/

/-- Claim C5: for every persisted state whose file says `running`, reading
via `GetStatus` reports `stopped` — and downgrades every agent's `running`
status to `stopped` — whenever the liveness marker is absent or its
recorded process is not alive; when the marker's process is alive the state
is returned unmodified. -/
theorem getStatus_liveness_downgrade (env : PidEnv) (j : Json) (st : State)
    (hdec : decodeState j = some st) (hrun : st.status = "running") :
    ((env.pidFile = none → isRunning env = false) ∧
     (∀ content pid, env.pidFile = some content → readPIDContent content = some pid →
        env.alive pid = false → isRunning env = false)) ∧
    (isRunning env = false →
      getStatus env (some j) = .ok { st with
        status := "stopped",
        agents := st.agents.map fun a =>
          if a.status == "running" then { a with status := "stopped" } else a }) ∧
    (isRunning env = true → getStatus env (some j) = .ok st) := by
  refine ⟨⟨?_, ?_⟩, ?_, ?_⟩
  · intro h
    simp [isRunning, h]
  · intro content pid h1 h2 h3
    simp [isRunning, h1, h2, h3]
  · intro h
    simp [getStatus, hdec, hrun, h]
  · intro h
    simp [getStatus, hdec, hrun, h]

/-- Sample state used by the C5 witness: persisted as `running` with one
running and one exited agent. -/
def sampleStateB : State :=
  { status := "running",
    startedAt := "2025-03-10T08:30:00Z",
    projectName := "proj",
    agents := [⟨1, "developer", "cid-111", "running", 5, "2025-03-10T09:00:00Z", none⟩,
      ⟨2, "tester", "cid-222", "exited", 0, "0001-01-01T00:00:00Z", none⟩],
    stats := ⟨0, 0, 0, 0⟩ }

/-- Closed witness for C5: a stale marker (process 999999 dead) downgrades
the sample state and its running agent; a live marker returns it
unmodified. -/
theorem getStatus_liveness_downgrade_witness :
    getStatus ⟨some "999999", fun _ => false⟩ (some (encodeState sampleStateB)) =
      .ok { sampleStateB with
        status := "stopped",
        agents := sampleStateB.agents.map fun a =>
          if a.status == "running" then { a with status := "stopped" } else a } ∧
    getStatus ⟨some "4242", fun p => p == 4242⟩ (some (encodeState sampleStateB)) =
      .ok sampleStateB := by
  constructor
  · exact (getStatus_liveness_downgrade ⟨some "999999", fun _ => false⟩
      (encodeState sampleStateB) sampleStateB rfl rfl).2.1 rfl
  · exact (getStatus_liveness_downgrade ⟨some "4242", fun p => p == 4242⟩
      (encodeState sampleStateB) sampleStateB rfl rfl).2.2 (by decide)

/-! ### C10: liveness reconciliation of agent states -/

/-- Claim C10: in the monitor tick's liveness reconciliation, an agent
whose id appears in the runtime listing gets the reported container handle
and the normalized runtime status; an agent whose id is no longer reported
is marked `stopped` — not `exited` — with every other field unchanged.  The
final conjunct identifies "appears in the listing" with the lookup the code
performs. -/
theorem updateAgentStates_reconcile (agents : List AgentState) (infos : List AgentInfo) :
    List.Forall₂ (fun a b =>
      (∀ info, infoFor infos a.id = some info →
        b = { a with containerID := info.containerID, status := normalizeStatus info.status }) ∧
      (infoFor infos a.id = none →
        b.status = "stopped" ∧ ¬ b.status = "exited" ∧ b.id = a.id ∧ b.role = a.role ∧
          b.containerID = a.containerID ∧ b.sessionsCompleted = a.sessionsCompleted ∧
          b.lastActivity = a.lastActivity ∧ b.currentTask = a.currentTask))
      agents (updateAgentStates agents infos) ∧
    (∀ a : AgentState, infoFor infos a.id = none ↔ ∀ i ∈ infos, ¬ i.id = a.id) := by
  constructor
  · unfold updateAgentStates
    induction agents with
    | nil => simp
    | cons a rest ih =>
      simp only [List.map_cons]
      refine List.Forall₂.cons ?_ ih
      cases hi : infoFor infos a.id with
      | none =>
        refine ⟨fun info hinfo => (by cases hinfo), fun _ => ?_⟩
        refine ⟨rfl, by simp, rfl, rfl, rfl, rfl, rfl, rfl⟩
      | some info =>
        refine ⟨fun info2 hinfo => ?_, fun hnone => (by cases hnone)⟩
        cases hinfo
        rfl
  · intro a
    simp [infoFor, List.find?_eq_none]

/-! ### C9: monotonicity of the Stats counters across ticks -/

/-- The step relation the C9 claim asserts between the counters of
consecutive ticks: the three cumulative counters never decrease. -/
def statsMono (m m2 : MonitorStats) : Prop :=
  m.stats.totalCommits ≤ m2.stats.totalCommits ∧
    m.stats.totalSessions ≤ m2.stats.totalSessions ∧
    m.stats.tasksCompleted ≤ m2.stats.tasksCompleted

theorem tickStats_totalCommits (startedAt : Int) (m : MonitorStats) (obs : TickObs) :
    (tickStats startedAt m obs).stats.totalCommits =
      (match obs.commitCount with
        | none => m.stats.totalCommits
        | some count => (count : Int)) := by
  cases hc : obs.commitCount <;> simp [tickStats, hc]

theorem tickStats_prevCommitCount (startedAt : Int) (m : MonitorStats) (obs : TickObs) :
    (tickStats startedAt m obs).prevCommitCount =
      (match obs.commitCount with
        | none => m.prevCommitCount
        | some count => (count : Int)) := by
  cases hc : obs.commitCount <;> simp [tickStats, hc]

theorem tickStats_totalSessions (startedAt : Int) (m : MonitorStats) (obs : TickObs) :
    (tickStats startedAt m obs).stats.totalSessions = m.stats.totalSessions := by
  cases hc : obs.commitCount <;> simp [tickStats, hc]

theorem tickStats_tasksCompleted (startedAt : Int) (m : MonitorStats) (obs : TickObs) :
    (tickStats startedAt m obs).stats.tasksCompleted =
      m.stats.tasksCompleted + obs.cleared.length := by
  cases hc : obs.commitCount <;> simp [tickStats, hc]

theorem tickStats_uptime (startedAt : Int) (m : MonitorStats) (obs : TickObs) :
    (tickStats startedAt m obs).stats.uptimeSeconds = obs.now - startedAt := by
  cases hc : obs.commitCount <;> simp [tickStats, hc]

theorem runTicks_mono (startedAt : Int) :
    ∀ (obsList : List TickObs) (m : MonitorStats),
      m.prevCommitCount = m.stats.totalCommits →
      List.Chain' (· ≤ ·)
        (m.stats.totalCommits :: obsList.filterMap fun o => o.commitCount.map Int.ofNat) →
      List.Chain' statsMono (m :: runTicks startedAt m obsList) ∧
      List.Forall₂ (fun m2 o => m2.stats.uptimeSeconds = o.now - startedAt)
        (runTicks startedAt m obsList) obsList := by
  intro obsList
  induction obsList with
  | nil =>
    intro m _ _
    exact ⟨List.chain'_singleton m, List.Forall₂.nil⟩
  | cons obs rest ih =>
    intro m hprev hchain
    have hmono : statsMono m (tickStats startedAt m obs) := by
      refine ⟨?_, ?_, ?_⟩
      · rw [tickStats_totalCommits]
        cases hc : obs.commitCount with
        | none => exact le_refl _
        | some count =>
          rw [List.filterMap_cons, hc] at hchain
          exact (List.chain'_cons.mp hchain).1
      · rw [tickStats_totalSessions]
      · rw [tickStats_tasksCompleted]
        have : (0 : Int) ≤ obs.cleared.length := by positivity
        omega
    have hprev2 : (tickStats startedAt m obs).prevCommitCount =
        (tickStats startedAt m obs).stats.totalCommits := by
      rw [tickStats_prevCommitCount, tickStats_totalCommits]
      cases obs.commitCount <;> simp [hprev]
    have hchain2 : List.Chain' (· ≤ ·)
        ((tickStats startedAt m obs).stats.totalCommits ::
          rest.filterMap fun o => o.commitCount.map Int.ofNat) := by
      rw [tickStats_totalCommits]
      cases hc : obs.commitCount with
      | none =>
        rw [List.filterMap_cons, hc] at hchain
        exact hchain
      | some count =>
        rw [List.filterMap_cons, hc] at hchain
        exact (List.chain'_cons.mp hchain).2
    obtain ⟨hrest, hup2⟩ := ih (tickStats startedAt m obs) hprev2 hchain2
    refine ⟨List.chain'_cons.mpr ⟨hmono, hrest⟩, ?_⟩
    exact List.Forall₂.cons (tickStats_uptime startedAt m obs) hup2

/-- Claim C9: across every sequence of monitor ticks (whose observed
upstream commit counts never decrease — the upstream bare repository only
ever gains commits, every accepted push being a fast forward), the counters
`totalCommits`, `totalSessions` and `tasksCompleted` are monotonically
non-decreasing, while `uptimeSeconds` is recomputed on every tick as the
wall-clock delta between the tick instant and `startedAt`. -/
theorem monitor_stats_monotone (startedAt : Int) (obsList : List TickObs)
    (hgrow : List.Chain' (· ≤ ·)
      ((0 : Int) :: obsList.filterMap fun o => o.commitCount.map Int.ofNat)) :
    List.Chain' statsMono (initialMonitorStats :: runTicks startedAt initialMonitorStats obsList) ∧
    List.Forall₂ (fun m2 o => m2.stats.uptimeSeconds = o.now - startedAt)
      (runTicks startedAt initialMonitorStats obsList) obsList :=
  runTicks_mono startedAt obsList initialMonitorStats rfl hgrow

/-- Tick observations used by the C9 witness: a commit-count increase with
one cleared lock, a failed count, and a further increase. -/
def sampleTicks : List TickObs :=
  [⟨some 5, ["a"], 130⟩, ⟨none, [], 160⟩, ⟨some 7, [], 190⟩]

/-- Closed witness for C9: the counters never decrease over the three
sample ticks, and each tick's uptime is its wall-clock delta. -/
theorem monitor_stats_monotone_witness :
    List.Chain' statsMono
      (initialMonitorStats :: runTicks 100 initialMonitorStats sampleTicks) ∧
    List.Forall₂ (fun m2 o => m2.stats.uptimeSeconds = o.now - 100)
      (runTicks 100 initialMonitorStats sampleTicks) sampleTicks :=
  monitor_stats_monotone 100 sampleTicks
    (by
      have hf : (sampleTicks.filterMap fun o => o.commitCount.map Int.ofNat) = [5, 7] := rfl
      rw [hf]
      simp [List.chain'_cons])

/-! ### C8: SyncToProjectDir conflict behaviour -/

/-- Claim C8 (spec-modelled): a `syncToProjectDir` whose merge hits a
conflict returns an error mentioning the merge failure and leaves the
project directory's `HEAD` and working tree exactly as before the attempt,
with no merge marker left behind; on success it returns the newly-merged
commit subjects, and the empty set when already up to date. -/
theorem syncToProjectDir_conflict_abort (env : MergeEnv) (p : ProjectRepo)
    (hclean : p.mergeHead = none) :
    (env.conflict = true → env.upstreamTip ≠ p.head →
      (syncToProjectDir env p).1 = p ∧
      (syncToProjectDir env p).1.head = p.head ∧
      (syncToProjectDir env p).1.workingTree = p.workingTree ∧
      (syncToProjectDir env p).1.mergeHead = none ∧
      ∃ msg, (syncToProjectDir env p).2 = .error msg ∧ goContains msg "merge failed" = true) ∧
    (env.conflict = false → env.upstreamTip ≠ p.head →
      syncToProjectDir env p =
        (⟨env.upstreamTip, env.mergedTree, none⟩, .ok env.newSubjects)) ∧
    (env.upstreamTip = p.head → syncToProjectDir env p = (p, .ok [])) := by
  refine ⟨fun hc hne => ?_, fun hc hne => ?_, fun he => ?_⟩
  · have habort : (syncToProjectDir env p).1 = p := by
      obtain ⟨h1, h2, h3⟩ := p
      simp only at hclean
      subst hclean
      simp [syncToProjectDir, mergeCommand, abortMerge, hne, hc]
    refine ⟨habort, by rw [habort], by rw [habort], by rw [habort, hclean], ?_⟩
    refine ⟨"gitops: merge failed: merge conflict in project dir", ?_, by decide⟩
    simp [syncToProjectDir, mergeCommand, hne, hc]
  · simp [syncToProjectDir, mergeCommand, hne, hc]
  · simp [syncToProjectDir, he]

/-- Closed witness for C8: a conflicting merge aborts and surfaces a
merge-failure error; a clean merge brings the new subjects; an up-to-date
project is a no-op. -/
theorem syncToProjectDir_conflict_abort_witness :
    ((syncToProjectDir ⟨7, ["feat: x"], true, [], [("conflict.txt", "mid-merge")]⟩
        ⟨3, [("f", "1")], none⟩).1 = ⟨3, [("f", "1")], none⟩ ∧
      ∃ msg, (syncToProjectDir ⟨7, ["feat: x"], true, [], [("conflict.txt", "mid-merge")]⟩
        ⟨3, [("f", "1")], none⟩).2 = .error msg ∧ goContains msg "merge failed" = true) ∧
    syncToProjectDir ⟨7, ["feat: x"], false, [("f", "2")], []⟩ ⟨3, [("f", "1")], none⟩ =
      (⟨7, [("f", "2")], none⟩, .ok ["feat: x"]) ∧
    syncToProjectDir ⟨3, [], false, [], []⟩ ⟨3, [("f", "1")], none⟩ =
      (⟨3, [("f", "1")], none⟩, .ok []) := by
  refine ⟨?_, ?_, ?_⟩
  · have h := (syncToProjectDir_conflict_abort
      ⟨7, ["feat: x"], true, [], [("conflict.txt", "mid-merge")]⟩ ⟨3, [("f", "1")], none⟩ rfl).1
      rfl (by decide)
    exact ⟨h.1, h.2.2.2.2⟩
  · exact (syncToProjectDir_conflict_abort ⟨7, ["feat: x"], false, [("f", "2")], []⟩
      ⟨3, [("f", "1")], none⟩ rfl).2.1 rfl (by decide)
  · exact (syncToProjectDir_conflict_abort ⟨3, [], false, [], []⟩
      ⟨3, [("f", "1")], none⟩ rfl).2.2 rfl

end Metamorph
